import Mathlib

/-!
Verification of `pi_ADC.py` (ADC-Mezzanine-Board): a bit-banged serial
readout of an ADS7886 ADC on a Raspberry Pi.

Shallow embedding conventions:
* The SDO data line is modelled as a stream of bits; `true` is electrical
  high (the pulled-up idle level, reading `1`), `false` is low (`0`).
* Each clock pulse (drive SCLK low then high) consumes exactly one bit of
  the stream: the bit `GPIO.input(sdoPin)` would return right after that
  pulse.  Operations on a finite stream return the number of pulses issued
  together with the unconsumed suffix, or `none` when the finite stream is
  exhausted mid-operation.
* Python float arithmetic in the voltage conversion is modelled over `ℚ`
  (all quantities involved are dyadic rationals, exact in both models for
  the parameters in use).
-/

namespace PiADC

/-- A bit sampled from the SDO line: `true` = high (1), `false` = low (0).
SDO is pulled up (source line 35), so an idle line reads `true`. -/
abbrev Bit := Bool

/-! ### Configuration constants (source lines 19-23) -/

/-- Source line 19: `vref = 3300`, the ADC reference voltage in mV. -/
def vref : ℚ := 3300

/-- Source line 20: `resolution = 12`, the ADC resolution in bits. -/
def resolution : Nat := 12

/-- Source line 21: `offset = 0`, mV of offset applied to ADC output. -/
def offset : ℚ := 0

/-- Source line 22: `threshold = 200`, minimum event voltage to record, in mV. -/
def threshold : ℚ := 200

/-! ### Frame synchronizer: `waitForData` (source lines 56-71)

The loop pulses SCLK and reads SDO.  A high bit keeps the outer search
loop going.  On a low bit it sets `dataDetected` and unconditionally reads
a three-bit confirmation window (`for _i in range(3)`); any high bit in the
window clears `dataDetected`, but the remaining window bits are still
clocked out before the outer loop resumes.  It returns once an initial
zero is followed by three more zeros. -/

/-- Model of `waitForData` on a finite stream: `some (n, r)` means it returned after
issuing `n` clock pulses (consuming `n` bits), leaving suffix `r`
positioned at the first data bit; `none` means the finite stream ran out
before synchronization. -/
def waitForData : List Bit → Option (Nat × List Bit)
  | [] => none
  | true :: rest =>
      -- SDO high after the pulse: no data yet, keep looping (line 63 test fails)
      (waitForData rest).map fun q => (q.1 + 1, q.2)
  | false :: b1 :: b2 :: b3 :: rest =>
      -- a single zero detected; clock out three more bits (lines 64-71)
      if b1 || b2 || b3 then
        -- some window bit was high: dataDetected cleared, window still consumed
        (waitForData rest).map fun q => (q.1 + 4, q.2)
      else
        some (4, rest)
  | false :: _ => none

/-! ### Sample reader and conversion: `readADC` (source lines 74-99) -/

/-- The value of one bit as the integer `GPIO.input` returns (0 or 1). -/
def bitVal (b : Bit) : Nat := if b then 1 else 0

/-- The read loop (lines 79-83): pulse the clock exactly `W` times,
recording the `W` sampled bits, unconditionally and with no mid-read
re-validation.  `none` when the finite stream has fewer than `W` bits. -/
def readBits (W : Nat) (s : List Bit) : Option (List Bit × List Bit) :=
  if W ≤ s.length then some (s.take W, s.drop W) else none

/-- The accumulation loop (lines 86-88):
`validData += validDataList[i] * 2**(resolution-i-1)` for `i` in
`range(resolution)`. -/
def assemble (W : Nat) (bits : List Bit) : Nat :=
  (List.range W).foldl (fun acc i => acc + bitVal (bits.getD i false) * 2 ^ (W - i - 1)) 0

/-- The unit conversion (line 91):
`validData = (validData / (2.0 ** resolution)) * vref + offset`. -/
def toVoltage (W : Nat) (Vref off : ℚ) (raw : Nat) : ℚ :=
  ((raw : ℚ) / 2 ^ W) * Vref + off

/-- A record appended to `ADC_file` (line 99): timestamp and voltage. -/
structure Record where
  timestamp : Nat
  millivolts : ℚ
deriving DecidableEq, Repr

/-- Result of one `readADC` call: the computed voltage, the record emitted
to the sink (if any), the total number of clock pulses issued, and the
unconsumed stream suffix. -/
structure AcqResult where
  voltage : ℚ
  emitted : Option Record
  pulses : Nat
  rest : List Bit
deriving DecidableEq, Repr

/-- Model of `readADC` (lines 74-99): synchronize, read `W` bits, assemble the raw
value MSB-first, convert to mV, and emit a timestamped record iff the
voltage strictly exceeds the threshold (line 97: `if validData > threshold`).
The timestamp `ts` abstracts `datetime.now()` (line 94). -/
def readADC (W : Nat) (Vref off thr : ℚ) (ts : Nat) (s : List Bit) :
    Option AcqResult :=
  match waitForData s with
  | none => none
  | some (n, r) =>
    match readBits W r with
    | none => none
    | some (bits, r') =>
      let v := toVoltage W Vref off (assemble W bits)
      some ⟨v, if thr < v then some ⟨ts, v⟩ else none, n + W, r'⟩

/-! ### Startup sequencer: `startADC` (source lines 42-53) -/

/-- Model of `startADC` (lines 42-53): run `waitForData` once, discard its result,
then toggle SCLK 20 more times (lines 49-51) without ever reading SDO.
The 20 flush pulses advance the converter past 20 bits that are never
sampled. -/
def startADC (s : List Bit) : Option (Nat × List Bit) :=
  match waitForData s with
  | none => none
  | some (n, r) => some (n + 20, r.drop 20)

/-! ### Clock-line command trace

Every pulse in the program drives SCLK low then high, in that order
(lines 50-51, 60-61, 68-69, 81-82), per the source's stated standard
(line 11: every method should end with SCLK high). -/

/-- The two levels commanded on SCLK by one pulse: LOW then HIGH. -/
def pulseLevels : List Bool := [false, true]

/-- The raw sequence of levels commanded on the clock line by `n` pulses. -/
def clockTrace (n : Nat) : List Bool := (List.replicate n pulseLevels).flatten

/-! ### Helper lemmas about the synchronizer -/

/-- Structural soundness of the synchronizer: whenever `waitForData`
returns having issued `n` pulses and leaving suffix `r`, the consumed bits
are some discarded prefix `p` followed by exactly four zero bits (the
frame marker), and `n` counts them all. -/
theorem waitForData_decomp :
    ∀ (s : List Bit) (n : Nat) (r : List Bit), waitForData s = some (n, r) →
      ∃ p : List Bit, s = p ++ [false, false, false, false] ++ r ∧ n = p.length + 4
  | [], n, r, h => by simp [waitForData] at h
  | true :: rest, n, r, h => by
      simp only [waitForData, Option.map_eq_some', Prod.ext_iff] at h
      obtain ⟨⟨m, r'⟩, hm, hn, hr⟩ := h
      obtain ⟨p, hp, hmp⟩ := waitForData_decomp rest m r' hm
      subst hn hr
      refine ⟨true :: p, by simp [hp], by simp [hmp]⟩
  | false :: b1 :: b2 :: b3 :: rest, n, r, h => by
      simp only [waitForData] at h
      by_cases hb : (b1 || b2 || b3) = true
      · rw [if_pos hb] at h
        simp only [Option.map_eq_some', Prod.ext_iff] at h
        obtain ⟨⟨m, r'⟩, hm, hn, hr⟩ := h
        obtain ⟨p, hp, hmp⟩ := waitForData_decomp rest m r' hm
        subst hn hr
        refine ⟨false :: b1 :: b2 :: b3 :: p, by simp [hp], by simp [hmp]⟩
      · rw [if_neg hb] at h
        simp only [Option.some.injEq, Prod.ext_iff] at h
        obtain ⟨hn, hr⟩ := h
        subst hn hr
        simp only [Bool.or_eq_true, not_or, Bool.not_eq_true] at hb
        exact ⟨[], by simp [hb.1.1, hb.1.2, hb.2], rfl⟩
  | [false], n, r, h => by simp [waitForData] at h
  | [false, b1], n, r, h => by simp [waitForData] at h
  | [false, b1, b2], n, r, h => by simp [waitForData] at h

/-- The suffix returned by `waitForData` is exactly the input minus the
`n` consumed bits: consumed bits are never handed back. -/
theorem waitForData_rest_eq_drop (s : List Bit) (n : Nat) (r : List Bit)
    (h : waitForData s = some (n, r)) : r = s.drop n := by
  obtain ⟨p, hp, hn⟩ := waitForData_decomp s n r h
  subst hp hn
  have hlen : p.length + 4 = (p ++ [false, false, false, false]).length := by simp
  rw [hlen, List.drop_left]

/-! ### Claim theorems -/

/-- C1: for every input bit sequence, `waitForData` returns only after
observing exactly four consecutive zero bits with no intervening 1 — the
four bits immediately preceding its return point are all zeros and are
exactly what remains of the marker search — and a 1 bit observed during
the search resets all marker progress to zero: the behavior after a 1 in
the search loop is exactly a fresh search on the remaining stream, so no
earlier zeros are counted. -/
theorem c1_marker_exact_and_full_reset :
    (∀ (s : List Bit) (n : Nat) (r : List Bit), waitForData s = some (n, r) →
      ∃ p : List Bit, s = p ++ [false, false, false, false] ++ r ∧ n = p.length + 4) ∧
    (∀ rest : List Bit, waitForData (true :: rest) =
      (waitForData rest).map fun q => (q.1 + 1, q.2)) :=
  ⟨waitForData_decomp, fun _ => rfl⟩

/-- Witness for C1 at the spec's example stream 1,0,0,0,1,0,0,0,0: it
synchronizes only at the end, after the final four zeros. -/
theorem c1_marker_exact_and_full_reset_witness :
    ∃ p : List Bit,
      [true, false, false, false, true, false, false, false, false] =
        p ++ [false, false, false, false] ++ ([] : List Bit) ∧ 9 = p.length + 4 :=
  c1_marker_exact_and_full_reset.1 _ 9 [] (by decide)

/-- C9: a 1 bit inside the three-bit confirmation window does not restart
the search immediately — the remaining window bits are still clocked out
and discarded before the search resumes (the continuation is a fresh
search on the suffix strictly after the whole window, so zeros inside a
failed window never count toward a later marker); and whenever
`waitForData` returns, the last four bits it consumed were all zeros. -/
theorem c9_window_discarded_and_sound :
    (∀ (b1 b2 b3 : Bit) (rest : List Bit), (b1 || b2 || b3) = true →
      waitForData (false :: b1 :: b2 :: b3 :: rest) =
        (waitForData rest).map fun q => (q.1 + 4, q.2)) ∧
    (∀ (s : List Bit) (n : Nat) (r : List Bit), waitForData s = some (n, r) →
      (s.take n).drop (n - 4) = [false, false, false, false]) := by
  constructor
  · intro b1 b2 b3 rest hb
    simp [waitForData, hb]
  · intro s n r h
    obtain ⟨p, hp, hn⟩ := waitForData_decomp s n r h
    subst hp hn
    rw [Nat.add_sub_cancel]
    have hlen : p.length + 4 = (p ++ [false, false, false, false]).length := by simp
    rw [hlen, List.take_left, List.drop_left]

/-- Witness for C9: in the stream 0,1,0,0,0,0,0,0 the failed window
0,1,0,0 is wholly discarded and search resumes on the 4-zero suffix. -/
theorem c9_window_discarded_and_sound_witness :
    waitForData [false, true, false, false, false, false, false, false] =
      (waitForData [false, false, false, false]).map fun q => (q.1 + 4, q.2) :=
  c9_window_discarded_and_sound.1 true false false
    [false, false, false, false] (by decide)

/-- Any nonzero number of pulses leaves the last commanded clock level
HIGH, because each pulse commands LOW then HIGH. -/
theorem clockTrace_getLast?_eq_true :
    ∀ n : Nat, 1 ≤ n → (clockTrace n).getLast? = some true
  | 0, h => by omega
  | 1, _ => rfl
  | n + 2, _ => by
      have ih := clockTrace_getLast?_eq_true (n + 1) (by omega)
      have step : clockTrace (n + 2) = pulseLevels ++ clockTrace (n + 1) := by
        simp [clockTrace, List.replicate_succ]
      rw [step, List.getLast?_append, ih]
      rfl

/-- Unfolding characterization of a successful `readADC` run: it is a
successful synchronization followed by a successful `W`-bit read, and the
result fields are exactly the assembled, converted and filtered values. -/
theorem readADC_eq_some (W : Nat) (Vref off thr : ℚ) (ts : Nat) (s : List Bit)
    (a : AcqResult) (h : readADC W Vref off thr ts s = some a) :
    ∃ n r bits r', waitForData s = some (n, r) ∧ readBits W r = some (bits, r') ∧
      a = ⟨toVoltage W Vref off (assemble W bits),
           if thr < toVoltage W Vref off (assemble W bits) then
             some ⟨ts, toVoltage W Vref off (assemble W bits)⟩ else none,
           n + W, r'⟩ := by
  simp only [readADC] at h
  split at h
  · exact absurd h (by simp)
  · rename_i n r hw
    split at h
    · exact absurd h (by simp)
    · rename_i bits r' hb
      injection h with h'
      exact ⟨n, r, bits, r', hw, hb, h'.symm⟩

/-- C6: idle-high discipline — for every input bit stream, after each
public operation returns (`waitForData`, `readADC`, `startADC`), the last
level commanded on the clock line is HIGH. -/
theorem c6_idle_high :
    (∀ (s : List Bit) (n : Nat) (r : List Bit), waitForData s = some (n, r) →
      (clockTrace n).getLast? = some true) ∧
    (∀ (W : Nat) (Vref off thr : ℚ) (ts : Nat) (s : List Bit) (a : AcqResult),
      readADC W Vref off thr ts s = some a →
        (clockTrace a.pulses).getLast? = some true) ∧
    (∀ (s : List Bit) (m : Nat) (r : List Bit), startADC s = some (m, r) →
      (clockTrace m).getLast? = some true) := by
  refine ⟨?_, ?_, ?_⟩
  · intro s n r h
    obtain ⟨p, _, hn⟩ := waitForData_decomp s n r h
    exact clockTrace_getLast?_eq_true n (by omega)
  · intro W Vref off thr ts s a h
    obtain ⟨n, r, bits, r', hw, hb, ha⟩ := readADC_eq_some W Vref off thr ts s a h
    obtain ⟨p, _, hn⟩ := waitForData_decomp s n r hw
    subst ha
    exact clockTrace_getLast?_eq_true (n + W) (by omega)
  · intro s m r h
    simp only [startADC] at h
    split at h
    · exact absurd h (by simp)
    · rename_i n r₀ hw
      simp only [Option.some.injEq, Prod.ext_iff] at h
      obtain ⟨hm, _⟩ := h
      subst hm
      obtain ⟨p, _, hn⟩ := waitForData_decomp s n r₀ hw
      exact clockTrace_getLast?_eq_true (n + 20) (by omega)

/-- Witness for C6: concrete runs of all three operations. -/
theorem c6_idle_high_witness :
    (clockTrace 4).getLast? = some true ∧
    (clockTrace 9).getLast? = some true ∧
    (clockTrace 24).getLast? = some true := by
  refine ⟨c6_idle_high.1 [false, false, false, false] 4 [] (by decide), ?_, ?_⟩
  · exact c6_idle_high.2.1 4 3300 0 200 0
      [true, false, false, false, false, true, false, true, true]
      ⟨(2268.75 : ℚ), some ⟨0, (2268.75 : ℚ)⟩, 9, []⟩
      (by simp [readADC, readBits, assemble, toVoltage, bitVal, waitForData,
            List.range_succ]; norm_num)
  · exact c6_idle_high.2.2 (List.replicate 24 false) 24 [] (by decide)

/-- C7: `startADC` runs the synchronizer exactly once, reads no sample
bits, then issues exactly 20 flush pulses (with 20 ≥ 2·4) whose bits are
skipped without ever being examined (the 20 flushed bits `w` are
arbitrary); the stream it leaves is the suffix of the input strictly after
everything consumed during startup, so no startup bit is ever reused. -/
theorem c7_startup_structure :
    ∀ (s : List Bit) (n : Nat) (w t : List Bit),
      waitForData s = some (n, w ++ t) → w.length = 20 →
        startADC s = some (n + 20, t) ∧ t = s.drop (n + 20) ∧ 2 * 4 ≤ 20 := by
  intro s n w t hw hl
  refine ⟨?_, ?_, by omega⟩
  · simp only [startADC]
    rw [hw]
    show some (n + 20, (w ++ t).drop 20) = some (n + 20, t)
    rw [List.drop_left' hl]
  · have hr := waitForData_rest_eq_drop s n (w ++ t) hw
    have h2 : t = (w ++ t).drop 20 := (List.drop_left' hl).symm
    rw [h2, hr, List.drop_drop]

/-- Witness for C7: sync on four zeros, flush 20 further zeros, and the
remaining stream is exactly the untouched suffix. -/
theorem c7_startup_structure_witness :
    startADC (List.replicate 24 false ++ [true]) = some (4 + 20, [true]) ∧
    [true] = (List.replicate 24 false ++ [true]).drop (4 + 20) ∧ 2 * 4 ≤ 20 :=
  c7_startup_structure _ 4 (List.replicate 20 false) [true] (by decide) (by decide)

/-- C5: in each acquisition cycle a (timestamp, voltage) record is emitted
to the sink iff the computed voltage strictly exceeds the configured
threshold; at or below the threshold (equality included) the sample is
still computed — the result always carries the voltage — but no record is
emitted. -/
theorem c5_threshold_filter :
    ∀ (W : Nat) (Vref off thr : ℚ) (ts : Nat) (s : List Bit) (a : AcqResult),
      readADC W Vref off thr ts s = some a →
        (a.emitted = some ⟨ts, a.voltage⟩ ↔ thr < a.voltage) ∧
        (a.emitted = none ↔ a.voltage ≤ thr) := by
  intro W Vref off thr ts s a h
  obtain ⟨n, r, bits, r', hw, hb, ha⟩ := readADC_eq_some W Vref off thr ts s a h
  subst ha
  by_cases hv : thr < toVoltage W Vref off (assemble W bits)
  · exact ⟨by simp [hv], by simp [hv, not_le.mpr hv]⟩
  · exact ⟨by simp [hv], by simp [hv, not_lt.mp hv]⟩

/-- A concrete acquisition result used to witness the threshold filter. -/
def demoAcq : AcqResult := ⟨(2268.75 : ℚ), some ⟨0, (2268.75 : ℚ)⟩, 9, []⟩

/-- Witness for C5 at the end-to-end input: 2268.75 mV > 200 mV, so its
record is emitted and the both directions of the filter hold concretely. -/
theorem c5_threshold_filter_witness :
    (demoAcq.emitted = some ⟨0, demoAcq.voltage⟩ ↔ (200 : ℚ) < demoAcq.voltage) ∧
    (demoAcq.emitted = none ↔ demoAcq.voltage ≤ (200 : ℚ)) :=
  c5_threshold_filter 4 3300 0 200 0
    [true, false, false, false, false, true, false, true, true] demoAcq
    (by simp [readADC, demoAcq, readBits, assemble, toVoltage, bitVal,
          waitForData, List.range_succ]; norm_num)

/-- C2: end-to-end scenario with K=4, W=4, Vref=3300, offset=0,
threshold=200 on bit stream 1,0,0,0,0,1,0,1,1: the synchronizer consumes
five bits — the four marker zeros being stream positions 2-5 (1-indexed,
i.e. starting at position 2) — the reader consumes 1,0,1,1 giving raw 11,
the voltage is (11/16)*3300 = 2268.75 mV, and since 2268.75 > 200 a
record is emitted. -/
theorem c2_end_to_end :
    waitForData [true, false, false, false, false, true, false, true, true] =
      some (5, [true, false, true, true]) ∧
    ([true, false, false, false, false, true, false, true, true].take 5).drop 1 =
      [false, false, false, false] ∧
    readBits 4 [true, false, true, true] = some ([true, false, true, true], []) ∧
    assemble 4 [true, false, true, true] = 11 ∧
    toVoltage 4 3300 0 11 = 2268.75 ∧
    readADC 4 3300 0 200 0 [true, false, false, false, false, true, false, true, true] =
      some ⟨(2268.75 : ℚ), some ⟨0, (2268.75 : ℚ)⟩, 9, []⟩ := by
  refine ⟨by decide, by decide, by decide, by decide, by norm_num [toVoltage], ?_⟩
  simp [readADC, readBits, assemble, toVoltage, bitVal, waitForData, List.range_succ]
  norm_num

/-! ### MSB-first encoding and the round-trip property (C3) -/

/-- MSB-first `W`-bit encoding of `n`: the bit read at position `i` of the
read order is bit `W-1-i` of `n`. -/
def natToBits (W n : Nat) : List Bit := (List.range W).map fun i => n.testBit (W - 1 - i)

/-- Folding `acc + f i` over `range W` starting from 0 is the sum of `f`. -/
theorem foldl_add_range (f : ℕ → ℕ) :
    ∀ W : ℕ, (List.range W).foldl (fun acc i => acc + f i) 0 = ∑ i in Finset.range W, f i := by
  intro W
  induction W with
  | zero => rfl
  | succ W ih =>
      rw [List.range_succ, List.foldl_append, ih, Finset.sum_range_succ]
      rfl

/-- The accumulation loop computes the positional sum of its bits. -/
theorem assemble_eq_sum (W : Nat) (bits : List Bit) :
    assemble W bits = ∑ i in Finset.range W, bitVal (bits.getD i false) * 2 ^ (W - i - 1) :=
  foldl_add_range _ W

/-- Binary expansion up to width `W` reconstructs `n` modulo `2^W`. -/
theorem sum_testBit_mod (n : Nat) :
    ∀ W : ℕ, ∑ j in Finset.range W, bitVal (n.testBit j) * 2 ^ j = n % 2 ^ W := by
  intro W
  induction W with
  | zero => simp [Nat.mod_one]
  | succ W ih =>
      rw [Finset.sum_range_succ, ih]
      have h2 : (2 : ℕ) ^ (W + 1) = 2 ^ W * 2 := by ring
      rw [h2, Nat.mod_mul]
      have hb : bitVal (n.testBit W) = n / 2 ^ W % 2 := by
        rw [Nat.testBit_to_div_mod]
        rcases Nat.mod_two_eq_zero_or_one (n / 2 ^ W) with h | h <;> simp [bitVal, h]
      rw [hb]
      ring

/-- Indexing the MSB-first encoding. -/
theorem natToBits_getD (W n i : Nat) (h : i < W) :
    (natToBits W n).getD i false = n.testBit (W - 1 - i) := by
  have hlen : i < (natToBits W n).length := by simp [natToBits, h]
  rw [List.getD_eq_getElem?_getD, List.getElem?_eq_getElem hlen]
  simp [natToBits]

/-- C3: after synchronization the reader pulses the clock exactly `W`
times unconditionally, sampling one bit per pulse (the bits read are
exactly the next `W` stream bits, in order), and assembles the raw sample
MSB-first; consequently decoding the `W`-bit MSB-first encoding of any
raw value in `[0, 2^W - 1]` reproduces it exactly. -/
theorem c3_reader_exact_and_roundtrip :
    (∀ (W : Nat) (s bits r : List Bit), readBits W s = some (bits, r) →
      bits.length = W ∧ bits = s.take W ∧ r = s.drop W) ∧
    (∀ W n : Nat, n < 2 ^ W → assemble W (natToBits W n) = n) := by
  constructor
  · intro W s bits r h
    unfold readBits at h
    split at h
    · rename_i hle
      rw [Option.some.injEq, Prod.ext_iff] at h
      obtain ⟨h1, h2⟩ := h
      subst h1 h2
      exact ⟨by simp [List.length_take]; omega, rfl, rfl⟩
    · exact absurd h (by simp)
  · intro W n h
    rw [assemble_eq_sum]
    have hcg : ∀ i ∈ Finset.range W,
        bitVal ((natToBits W n).getD i false) * 2 ^ (W - i - 1)
          = bitVal (n.testBit (W - 1 - i)) * 2 ^ (W - 1 - i) := by
      intro i hi
      rw [Finset.mem_range] at hi
      rw [natToBits_getD W n i hi]
      have he : W - i - 1 = W - 1 - i := by omega
      rw [he]
    rw [Finset.sum_congr rfl hcg,
      Finset.sum_range_reflect (fun j => bitVal (n.testBit j) * 2 ^ j) W,
      sum_testBit_mod n W]
    exact Nat.mod_eq_of_lt h

/-- Witness for C3: reading 4 bits from 1,0,1,1 and round-tripping 11. -/
theorem c3_reader_exact_and_roundtrip_witness :
    ([true, false, true, true].length = 4 ∧
      [true, false, true, true] = [true, false, true, true].take 4 ∧
      ([] : List Bit) = [true, false, true, true].drop 4) ∧
    assemble 4 (natToBits 4 11) = 11 :=
  ⟨c3_reader_exact_and_roundtrip.1 4 [true, false, true, true]
      [true, false, true, true] [] (by decide),
   c3_reader_exact_and_roundtrip.2 4 11 (by decide)⟩

/-! ### Unit conversion boundaries (C4) -/

/-- Full-scale value of the conversion, as a function of Vref and offset. -/
theorem toVoltage_fullscale (W : Nat) (Vref off : ℚ) :
    toVoltage W Vref off (2 ^ W - 1) = Vref * (1 - 1 / 2 ^ W) + off := by
  unfold toVoltage
  have h1 : ((2 ^ W - 1 : ℕ) : ℚ) = 2 ^ W - 1 := by
    push_cast [Nat.one_le_two_pow]
    ring
  have h2 : (2 : ℚ) ^ W ≠ 0 := by positivity
  rw [h1]
  field_simp
  ring

/-- Counterexample to C4 as stated: the claim quantifies over every
`Vref`, but with `Vref = 0` (and `offset = 0`) the full-scale voltage
equals `Vref` exactly — `toVoltage 4 0 0 15 = 0`, and `0` is the
reference voltage — contradicting "never exactly Vref when offset = 0". -/
theorem c4_vref_zero_counterexample :
    toVoltage 4 0 0 (2 ^ 4 - 1) = (0 : ℚ) := by
  norm_num [toVoltage]

/-- C4 (amended): the conversion is the pure function
`(raw / 2^W) * Vref + offset` with the raw integer promoted to a rational
before division; `raw = 0` gives `offset`, `raw = 2^W - 1` gives
`Vref * (1 - 2^(-W)) + offset`, and the latter is never exactly `Vref`
when `offset = 0` and `Vref ≠ 0`. -/
theorem c4_conversion_boundaries :
    (∀ (W : Nat) (Vref off : ℚ), toVoltage W Vref off 0 = off) ∧
    (∀ (W : Nat) (Vref off : ℚ),
      toVoltage W Vref off (2 ^ W - 1) = Vref * (1 - 1 / 2 ^ W) + off) ∧
    (∀ (W : Nat) (Vref : ℚ), Vref ≠ 0 → toVoltage W Vref 0 (2 ^ W - 1) ≠ Vref) := by
  refine ⟨?_, toVoltage_fullscale, ?_⟩
  · intro W Vref off
    simp [toVoltage]
  · intro W Vref hV h
    rw [toVoltage_fullscale] at h
    apply hV
    have hX : Vref * (1 / 2 ^ W) = 0 := by linear_combination -h
    rcases mul_eq_zero.mp hX with h0 | h0
    · exact h0
    · exact absurd h0 (by positivity)

/-- Witness for C4 (amended) at the configured W = 12, Vref = 3300. -/
theorem c4_conversion_boundaries_witness :
    toVoltage 12 3300 0 0 = 0 ∧
    toVoltage 12 3300 0 (2 ^ 12 - 1) = 3300 * (1 - 1 / 2 ^ 12) + 0 ∧
    toVoltage 12 3300 0 (2 ^ 12 - 1) ≠ 3300 :=
  ⟨c4_conversion_boundaries.1 12 3300 0, c4_conversion_boundaries.2.1 12 3300 0,
   c4_conversion_boundaries.2.2 12 3300 (by norm_num)⟩

/-! ### The except-handler of `main` (C8)

Lines 106-114: `main` wraps the acquisition loop in `try/except`; the bare
handler runs `ADC_file.write("%s %f\n" % (dt_string, validData))` and then
`ADC_file.close()`.  In Python, `dt_string` and `validData` are assigned
only inside the body of `readADC` (lines 94 and 86), so they are locals of
`readADC`'s call frame, discarded whenever `readADC` returns; they are
never bound in `main`'s local scope nor at module scope.  (The handler's
write line is also indented with tabs while the surrounding block uses
spaces, a `TabError` in Python 3; we model the intended control flow and
the name-resolution failure.) -/

/-- Names bound at module scope of pi_ADC.py: the imports (lines 14-16),
the configuration constants (lines 19-23), the pin numbers (lines 26-28),
the open file handle (line 37) and the four functions. -/
def moduleScopeNames : List String :=
  ["time", "GPIO", "datetime", "vref", "resolution", "offset", "threshold",
   "sleepTime", "clockPin", "sdoPin", "holdPin", "ADC_file",
   "startADC", "waitForData", "readADC", "main"]

/-- Names assigned anywhere in the body of `main` (lines 102-114): none —
`main` only calls `startADC`, `readADC`, `time.sleep` and the handler's
statements, and assigns nothing. -/
def mainLocalNames : List String := []

/-- Python name resolution inside `main`: locals first, then module scope
(there is no enclosing function scope). -/
def resolvesInMain (name : String) : Bool :=
  name ∈ mainLocalNames || name ∈ moduleScopeNames

/-- Outcome of running `main`'s except-handler to completion. -/
inductive HandlerOutcome where
  | wroteAndClosed
  | nameError (missing : String)
deriving DecidableEq, Repr

/-- The except-handler of `main` (lines 111-114), entered when the
acquisition loop is interrupted after `samplesComputed` successful
`readADC` calls.  Evaluating the write's arguments resolves `dt_string`
and then `validData` in `main`'s scope; an unresolvable name raises
`NameError`, aborting the handler before the write and before
`ADC_file.close()`.  The count `samplesComputed` cannot influence
resolution, because `readADC`'s locals never enter `main`'s scope. -/
def exceptHandler (_samplesComputed : Nat) : HandlerOutcome :=
  if resolvesInMain "dt_string" then
    if resolvesInMain "validData" then HandlerOutcome.wroteAndClosed
    else HandlerOutcome.nameError "validData"
  else HandlerOutcome.nameError "dt_string"

/-- C8: the code contradicts the claim — the termination handler never
succeeds.  For every number of previously computed samples, including at
least one, it fails with a `NameError` on `dt_string` (a local of
`readADC`, unbound in `main`'s scope), so the best-effort final record is
not written and the sink is not closed by the handler. -/
theorem c8_handler_always_fails :
    ∀ samplesComputed : Nat,
      exceptHandler samplesComputed = HandlerOutcome.nameError "dt_string" ∧
      exceptHandler samplesComputed ≠ HandlerOutcome.wroteAndClosed := by
  intro k
  refine ⟨rfl, fun hc => ?_⟩
  rw [show exceptHandler k = HandlerOutcome.nameError "dt_string" from rfl] at hc
  exact HandlerOutcome.noConfusion hc

/-! ### Termination behavior on infinite streams (C10) -/

/-- Model of `waitForData` over an infinite bit stream `σ` (bit `i` is the
value SDO would read at the i-th pulse), starting at stream position
`pos`, with `fuel` bounding the number of outer-loop iterations examined:
`some p` means the loop returned with the stream positioned at `p`, the
first data bit; `none` means it was still looping after `fuel` outer
iterations.  The body mirrors source lines 59-71 exactly as `waitForData`
does on finite lists: a high bit continues the search at the next bit; a
low bit commits to a three-bit confirmation window. -/
def wfdStream : Nat → (Nat → Bit) → Nat → Option Nat
  | 0, _, _ => none
  | fuel + 1, σ, pos =>
    if σ pos then wfdStream fuel σ (pos + 1)
    else if σ (pos + 1) || σ (pos + 2) || σ (pos + 3) then wfdStream fuel σ (pos + 4)
    else some (pos + 4)

/-- One unfolding of the stream synchronizer. -/
theorem wfdStream_succ (fuel : Nat) (σ : Nat → Bit) (pos : Nat) :
    wfdStream (fuel + 1) σ pos =
      if σ pos then wfdStream fuel σ (pos + 1)
      else if σ (pos + 1) || σ (pos + 2) || σ (pos + 3) then wfdStream fuel σ (pos + 4)
      else some (pos + 4) := rfl

/-- On a stream that is all zeros from position `N` on, the synchronizer
returns within `k + 1` outer iterations from any position `pos` with
`N ≤ pos + k`: each iteration advances the position, and once past `N`
the very next window succeeds. -/
theorem wfdStream_succeeds (σ : Nat → Bit) (N : Nat) (hσ : ∀ i, N ≤ i → σ i = false) :
    ∀ (k pos : Nat), N ≤ pos + k → ∃ p, wfdStream (k + 1) σ pos = some p := by
  intro k
  induction k with
  | zero =>
      intro pos hp
      refine ⟨pos + 4, ?_⟩
      rw [wfdStream_succ, if_neg (by simp [hσ pos (by omega)]), if_neg (by
        simp [hσ (pos + 1) (by omega), hσ (pos + 2) (by omega), hσ (pos + 3) (by omega)])]
  | succ k ih =>
      intro pos hp
      by_cases h0 : σ pos = true
      · obtain ⟨p, hp'⟩ := ih (pos + 1) (by omega)
        exact ⟨p, by rw [wfdStream_succ, if_pos h0]; exact hp'⟩
      · have hf : σ pos = false := by simpa using h0
        by_cases hw : (σ (pos + 1) || σ (pos + 2) || σ (pos + 3)) = true
        · obtain ⟨p, hp'⟩ := ih (pos + 4) (by omega)
          exact ⟨p, by rw [wfdStream_succ, if_neg (by simp [hf]), if_pos hw]; exact hp'⟩
        · exact ⟨pos + 4, by rw [wfdStream_succ, if_neg (by simp [hf]), if_neg hw]⟩

/-- C10: the synchronizer terminates on every input stream that is
eventually constantly zero — `N + 1` outer iterations suffice when every
bit from position `N` on is zero — and it does not terminate on the
all-ones stream (the idle, pulled-up data line): with any amount of fuel
it is still looping and pulsing the clock. -/
theorem c10_termination :
    (∀ (σ : Nat → Bit) (N : Nat), (∀ i, N ≤ i → σ i = false) →
      ∃ p, wfdStream (N + 1) σ 0 = some p) ∧
    (∀ fuel pos, wfdStream fuel (fun _ => true) pos = none) := by
  constructor
  · intro σ N hσ
    exact wfdStream_succeeds σ N hσ N 0 (by omega)
  · intro fuel
    induction fuel with
    | zero => intro pos; rfl
    | succ fuel ih =>
        intro pos
        rw [wfdStream_succ, if_pos rfl]
        exact ih (pos + 1)

/-- Witness for C10: the all-zero stream synchronizes with fuel 1, and the
all-ones stream is still looping after 7 iterations. -/
theorem c10_termination_witness :
    (∃ p, wfdStream (0 + 1) (fun _ => false) 0 = some p) ∧
    wfdStream 7 (fun _ => true) 0 = none :=
  ⟨c10_termination.1 (fun _ => false) 0 (fun _ _ => rfl), c10_termination.2 7 0⟩

end PiADC
